import Mathlib

/-!
Verification of the PodcastHarvester reconciliation engine and
summarization pipeline. Each definition below is a shallow embedding of
the corresponding Python function, keeping the source's control flow:

* `create_5min_chunks` embeds `content_summarizer.create_5min_chunks`
* `call_llm_api` embeds the retry loop of `content_summarizer.call_llm_api`
* `process_video_folder` embeds `content_summarizer.process_video_folder`
* `get_existing_video_ids`, `get_actually_existing_video_ids` and
  `downloadPlan` embed the reconciliation logic of `podcast_harvester.py`
* `scan_channel_directory` / `create_control_file` embed
  `create_download_control_v2.py`
* `update_videos` embeds the item-merge loop of
  `podcast_harvester.update_unified_index` (the same rule is used by
  `merge_channel_indexes.merge_channel_indexes`)
* `repair_index_file` embeds `repair_unified_indexes.repair_index_file`

Filesystem state is passed explicitly (an `onDisk` predicate on relative
paths, association lists for JSON dictionaries); wall-clock timestamps are
passed as an explicit `now` string.
-/

namespace PodcastHarvester

/-! ## ChunkSegmenter: content_summarizer.create_5min_chunks -/

/-- One parsed SRT subtitle event, as produced by `parse_srt_file`:
a start time (seconds) and its text. -/
structure SubtitleEvent where
  start_time : Nat
  text : String
deriving DecidableEq, Repr

/-- One transcript chunk, as built by `create_5min_chunks`. -/
structure Chunk where
  chunk_number : Nat
  start_time : Nat
  end_time : Nat
  text : String
deriving DecidableEq, Repr

/-- Python str.strip(): drop whitespace from both ends of a string. -/
def pyStrip (s : String) : String :=
  ⟨((s.data.dropWhile Char.isWhitespace).reverse.dropWhile
      Char.isWhitespace).reverse⟩

/-- Python: join the event texts with single spaces and strip the result,
as in the chunk-text construction of create_5min_chunks. -/
def joinTexts (l : List SubtitleEvent) : String :=
  pyStrip (String.intercalate " " (l.map (·.text)))

/-- The loop state of `create_5min_chunks`: emitted chunks, the events of
the chunk being accumulated, the current window start and the next chunk
number. -/
structure ChunkBuildState where
  chunks : List Chunk
  current : List SubtitleEvent
  chunk_start_time : Nat
  chunk_number : Nat

/-- One iteration of the `for subtitle in subtitles` loop of
`create_5min_chunks`: when the event starts at or past the window end the
accumulated chunk (if nonempty) is closed with end time
`chunk_start_time + chunk_duration` and a new window is opened aligned to
the event's time; otherwise the event is appended to the current chunk. -/
def chunkStep (chunk_duration : Nat) (st : ChunkBuildState) (s : SubtitleEvent) :
    ChunkBuildState :=
  if st.chunk_start_time + chunk_duration ≤ s.start_time then
    let st1 :=
      if st.current = [] then st
      else
        { st with
          chunks := st.chunks ++
            [{ chunk_number := st.chunk_number
               start_time := st.chunk_start_time
               end_time := st.chunk_start_time + chunk_duration
               text := joinTexts st.current }]
          chunk_number := st.chunk_number + 1 }
    { st1 with
      current := [s]
      chunk_start_time := s.start_time - s.start_time % chunk_duration }
  else
    { st with current := st.current ++ [s] }

/-- The trailing `if current_chunk:` block of `create_5min_chunks`: emit the
final partial chunk (if any) with approximate end time
`last event start + 60`. -/
def finishChunks (st : ChunkBuildState) : List Chunk :=
  match st.current.getLast? with
  | none => st.chunks
  | some last =>
      st.chunks ++
        [{ chunk_number := st.chunk_number
           start_time := st.chunk_start_time
           end_time := last.start_time + 60
           text := joinTexts st.current }]

/-- `content_summarizer.create_5min_chunks`: fold the step over the events,
then emit the final partial chunk. -/
def create_5min_chunks (subtitles : List SubtitleEvent)
    (chunk_duration : Nat := 300) : List Chunk :=
  finishChunks (subtitles.foldl (chunkStep chunk_duration)
    { chunks := [], current := [], chunk_start_time := 0, chunk_number := 1 })

/-- Invariant carried through the chunk-building loop: emitted starts are
multiples of the duration, strictly increasing and below the current window
start; emitted end times are start + duration; chunk numbers are dense from
1; and an empty accumulator means nothing was emitted yet. -/
def ChunkInv (d : Nat) (st : ChunkBuildState) : Prop :=
  (∀ c ∈ st.chunks, d ∣ c.start_time) ∧
  (st.chunks.map (·.start_time)).Pairwise (· < ·) ∧
  (∀ c ∈ st.chunks, c.start_time < st.chunk_start_time) ∧
  (∀ c ∈ st.chunks, c.end_time = c.start_time + d) ∧
  st.chunks.map (·.chunk_number) = List.range' 1 st.chunks.length ∧
  st.chunk_number = st.chunks.length + 1 ∧
  d ∣ st.chunk_start_time ∧
  (st.current = [] → st.chunks = [])

/-! ## SummaryClient: content_summarizer.call_llm_api retry loop -/

/-- The observable outcome of one attempt against the summarization
service, as discriminated by `call_llm_api`:
* `success content` — 200 response, parsed body with
  `choices[0].message.content` present;
* `missingChoices` — 200 response, parsed body, but `choices` absent or
  empty (the `Invalid response format` branch, which returns None);
* `badChoiceShape` — 200 response, parsed body, `choices` nonempty but
  `message`/`content` missing, raising KeyError into the generic handler;
* `malformedBody` — 200 response whose body fails JSON decoding
  (exception, generic handler);
* `non200` — a response whose status is not 200 (the `else` branch);
* `httpError` — an `urllib.error.HTTPError` (non-2xx raised by urlopen);
* `transportError` — an `urllib.error.URLError` or any other exception. -/
inductive ApiOutcome where
  | success (content : String)
  | missingChoices
  | badChoiceShape
  | malformedBody
  | non200
  | httpError
  | transportError
deriving DecidableEq, Repr

/-- The `for attempt in range(max_retries)` loop of `call_llm_api`:
`attempts` counts how many requests were issued so far, `fuel` is the
number of loop iterations left. A success returns the stripped content; a
200 body without a usable `choices` list returns None at once; every other
outcome falls through to the next iteration. The result pairs the returned
value with the total number of requests issued. -/
def callLoop (responses : Nat → ApiOutcome) : Nat → Nat → Option String × Nat
  | attempts, 0 => (none, attempts)
  | attempts, fuel + 1 =>
      match responses attempts with
      | .success content => (some (pyStrip content), attempts + 1)
      | .missingChoices => (none, attempts + 1)
      | _ => callLoop responses (attempts + 1) fuel

/-- `content_summarizer.call_llm_api`, abstracted over the sequence of
attempt outcomes: run the retry loop with `max_retries` iterations. -/
def call_llm_api (responses : Nat → ApiOutcome) (max_retries : Nat) :
    Option String × Nat :=
  callLoop responses 0 max_retries

/-- Outcomes on which the loop of `call_llm_api` continues to the next
attempt instead of returning. -/
def RetriableOutcome : ApiOutcome → Prop
  | .success _ => False
  | .missingChoices => False
  | _ => True

/-! ## Reconciler: podcast_harvester.get_existing_video_ids /
get_actually_existing_video_ids / download_channel_with_index -/

/-- The audio/video roles of a control entry's `files` map; the remaining
roles (description, thumbnails, subtitles) never influence the skip sets. -/
structure VideoFiles where
  audio : Option String
  video : Option String
deriving DecidableEq, Repr

/-- One entry of the `downloaded_videos` map of a control file. -/
structure DownloadedVideo where
  title : String
  files : VideoFiles
deriving DecidableEq, Repr

/-- Python `files.get('audio') or files.get('video')`: the `or` falls
through when the audio value is absent or the empty string. -/
def mainFile (f : VideoFiles) : Option String :=
  match f.audio with
  | some a => if a = "" then f.video else some a
  | none => f.video

/-- `podcast_harvester.get_existing_video_ids`: ids to skip. An id with a
truthy main file is kept when the file exists on disk, and also — when
`redownload_deleted` is false — when it does not. Entries without a truthy
main file are never kept. -/
def get_existing_video_ids (onDisk : String → Bool)
    (downloaded_videos : List (String × DownloadedVideo))
    (redownload_deleted : Bool) : List String :=
  downloaded_videos.filterMap fun p =>
    match mainFile p.2.files with
    | some f =>
        if f = "" then none
        else if onDisk f then some p.1
        else if redownload_deleted then none
        else some p.1
    | none => none

/-- `podcast_harvester.get_actually_existing_video_ids`: ids whose recorded
main file currently exists on disk. -/
def get_actually_existing_video_ids (onDisk : String → Bool)
    (downloaded_videos : List (String × DownloadedVideo)) : List String :=
  downloaded_videos.filterMap fun p =>
    match mainFile p.2.files with
    | some f =>
        if f = "" then none
        else if onDisk f then some p.1
        else none
    | none => none

/-- Step 2 and 3 of `download_channel_with_index` (with skip_existing on):
the skip set is `get_actually_existing_video_ids` when `redownload_deleted`
is true and `get_existing_video_ids` (with the flag false) otherwise; the
plan is the indexed ids minus the skip set. -/
def downloadPlan (video_ids : List String) (onDisk : String → Bool)
    (downloaded_videos : List (String × DownloadedVideo))
    (redownload_deleted : Bool) : List String :=
  let downloaded_ids :=
    if redownload_deleted then
      get_actually_existing_video_ids onDisk downloaded_videos
    else
      get_existing_video_ids onDisk downloaded_videos false
  video_ids.filter fun v => !(downloaded_ids.contains v)

/-! ## ControlStore: create_download_control_v2.py -/

/-- The slice of a yt-dlp info.json descriptor (plus the associated files
located next to it) that `scan_channel_directory` turns into a control
entry. -/
structure InfoDescriptor where
  video_id : String
  title : String
  files : VideoFiles
deriving DecidableEq, Repr

/-- The control entry built from one descriptor. -/
def entryOfDescriptor (d : InfoDescriptor) : DownloadedVideo :=
  { title := d.title, files := d.files }

/-- The slice of a control record relevant to the claims: the
`downloaded_videos` map and `statistics.total_videos`. -/
structure ControlData where
  downloaded_videos : List (String × DownloadedVideo)
  total_videos : Nat
deriving DecidableEq, Repr

/-- Python dict assignment `m[k] = v`: replace in place when the key is
present, append otherwise. -/
def dictInsert {α : Type} (m : List (String × α)) (k : String) (v : α) :
    List (String × α) :=
  if m.any (fun p => p.1 == k) then
    m.map fun p => if p.1 = k then (k, v) else p
  else m ++ [(k, v)]

/-- One iteration of the `for info_file in info_files` loop of
`scan_channel_directory`: descriptors without an id are skipped
(`if not video_info.get('video_id'): continue`); otherwise the entry is
stored under its id and `statistics['total_videos']` is incremented. -/
def scanStep (c : ControlData) (d : InfoDescriptor) : ControlData :=
  if d.video_id = "" then c
  else
    { downloaded_videos :=
        dictInsert c.downloaded_videos d.video_id (entryOfDescriptor d)
      total_videos := c.total_videos + 1 }

/-- `create_download_control_v2.scan_channel_directory`, abstracted over
the list of discovered info.json descriptors. -/
def scan_channel_directory (ds : List InfoDescriptor) : ControlData :=
  ds.foldl scanStep { downloaded_videos := [], total_videos := 0 }

/-- Python `base.copy()` followed by `base.update(overlay)`: keys of the
base keep their position (with the overlay's value on collision), new
overlay keys are appended. -/
def dictUpdate {α : Type} (base overlay : List (String × α)) :
    List (String × α) :=
  (base.map fun p =>
    match List.lookup p.1 overlay with
    | some v => (p.1, v)
    | none => p) ++
  overlay.filter fun q => !(base.any fun p => p.1 == q.1)

/-- `create_download_control_v2.create_control_file` after the rescan: when
deleted records are preserved and a previous control file exists, overlay
the rescan onto the previous entries and recompute `total_videos` from the
merged entry count; otherwise the rescan result is used verbatim. -/
def create_control_file (preserve_deleted : Bool)
    (existing : Option ControlData) (current : ControlData) : ControlData :=
  match preserve_deleted, existing with
  | true, some ex =>
      let merged := dictUpdate ex.downloaded_videos current.downloaded_videos
      { downloaded_videos := merged, total_videos := merged.length }
  | _, _ => current

/-! ## IndexStore merge: podcast_harvester.update_unified_index (the same
item-merge rule appears in merge_channel_indexes.merge_channel_indexes) -/

/-- One video record of a channel index, carrying its serialized form
(Python `str(video)`), whose length drives the merge heuristic. -/
structure VideoRecord where
  id : String
  serialized : String
deriving DecidableEq, Repr

/-- Python `len(str(video))`. -/
def serLen (v : VideoRecord) : Nat :=
  v.serialized.length

/-- The `for video in new_videos` loop of `update_unified_index`: a new id
is inserted; on collision the copy with the larger serialized form wins
(strictly larger replaces, ties keep the existing copy). -/
def update_videos (existing : List (String × VideoRecord)) :
    List VideoRecord → List (String × VideoRecord)
  | [] => existing
  | v :: vs =>
      update_videos
        (match List.lookup v.id existing with
         | none => dictInsert existing v.id v
         | some old =>
             if serLen old < serLen v then dictInsert existing v.id v
             else existing)
        vs

/-! ## Index repair: repair_unified_indexes.repair_index_file -/

/-- One entry of an index's `index_history` list. -/
structure HistoryEntry where
  cutoff_date : String
  created_date : String
  total_videos : Nat
  source_file : String
deriving DecidableEq, Repr

/-- A loaded `.channel_index.json` record; every field the repair tool can
touch is optional (absent key = `none`), `videos` defaults to the empty
map as in `index_data.get('videos', {})`. -/
structure RawIndex where
  cutoff_date : Option String
  cutoff_dates : Option (List String)
  index_history : Option (List HistoryEntry)
  current_cutoff_date : Option String
  last_updated : Option String
  created_date : Option String
  video_ids : Option (List String)
  total_videos : Option Nat
  videos : List (String × VideoRecord)
deriving DecidableEq, Repr

/-- Python `value or default` on an optional string: the default stands in
when the value is absent or empty. -/
def pyOrStr (a : Option String) (dflt : String) : String :=
  match a with
  | some s => if s = "" then dflt else s
  | none => dflt

/-- Python `max()` over a list of strings (lexicographic); only ever used
on a nonempty list. -/
def listMaxStr : List String → String
  | [] => ""
  | s :: rest => rest.foldl (fun a b => if a < b then b else a) s

/-- `repair_unified_indexes.repair_index_file` with `dry_run = False`,
abstracted over the wall clock (`now`): fill each missing field from the
best available legacy data, rebuild `video_ids` when absent or empty, and
resynchronize `total_videos` with the entry count. -/
def repair_index_file (now : String) (d : RawIndex) : RawIndex :=
  let d1 :=
    match d.cutoff_dates with
    | some _ => d
    | none =>
        { d with
          cutoff_dates := some
            (match d.cutoff_date with
             | some c => if c = "" then [] else [c]
             | none => []) }
  let d2 :=
    match d1.index_history with
    | some _ => d1
    | none =>
        { d1 with
          index_history := some
            [{ cutoff_date := d1.cutoff_date.getD "unknown"
               created_date := d1.created_date.getD now
               total_videos := d1.total_videos.getD 0
               source_file := "repaired_legacy" }] }
  let d3 :=
    match d2.current_cutoff_date with
    | some _ => d2
    | none =>
        { d2 with
          current_cutoff_date := some
            (pyOrStr d2.cutoff_date
              (match d2.cutoff_dates with
               | some l => if l = [] then "unknown" else listMaxStr l
               | none => "unknown")) }
  let d4 :=
    match d3.last_updated with
    | some _ => d3
    | none => { d3 with last_updated := some (d3.created_date.getD now) }
  let d5 :=
    if d4.video_ids = none ∨ d4.video_ids = some [] then
      { d4 with video_ids := some (d4.videos.map Prod.fst) }
    else d4
  if d5.total_videos.getD 0 ≠ d5.videos.length then
    { d5 with total_videos := some d5.videos.length }
  else d5

/-! ## SummarizationPipeline: content_summarizer.process_video_folder -/

/-- The two instruction templates `call_llm_api` can be asked for. -/
inductive PromptType where
  | chunk
  | final
deriving DecidableEq, Repr

/-- One request actually issued to the summarization service during a
pipeline run. -/
inductive ServiceCall where
  | chunkCall (chunk_number : Nat)
  | finalCall
deriving DecidableEq, Repr

/-- The per-item filesystem state `process_video_folder` probes: the
parsed transcript of the selected SRT file (`none` when the folder has no
SRT file at all, `some []` when parsing yields nothing), whether
`content_summary/final_summary.txt` exists, and the persisted
`chunk_summaries/summary_NNN.txt` artifacts keyed by chunk number. -/
structure VideoFolder where
  subtitles : Option (List SubtitleEvent)
  final_summary_exists : Bool
  chunk_summaries_on_disk : List (Nat × String)
deriving DecidableEq, Repr

/-- State of the per-chunk loop of `process_video_folder`: the
`chunk_summaries` list accumulated in memory, the service calls issued so
far, and the summary artifacts on disk. -/
structure ChunkLoopState where
  summaries : List (Nat × String)
  calls : List ServiceCall
  disk : List (Nat × String)
deriving DecidableEq, Repr

/-- One iteration of the `for i, chunk in enumerate(chunks, 1)` loop: a
persisted summary is loaded from disk; otherwise the service is called,
a success is persisted and collected, and a failure is skipped
(`continue`). -/
def chunkLoopStep (llm : PromptType → String → Option String)
    (st : ChunkLoopState) (c : Chunk) : ChunkLoopState :=
  match List.lookup c.chunk_number st.disk with
  | some s => { st with summaries := st.summaries ++ [(c.chunk_number, s)] }
  | none =>
      match llm PromptType.chunk c.text with
      | some s =>
          { summaries := st.summaries ++ [(c.chunk_number, s)]
            calls := st.calls ++ [ServiceCall.chunkCall c.chunk_number]
            disk := st.disk ++ [(c.chunk_number, s)] }
      | none => { st with calls := st.calls ++ [ServiceCall.chunkCall c.chunk_number] }

/-- The chunk loop of `process_video_folder`. -/
def chunkLoop (llm : PromptType → String → Option String)
    (st : ChunkLoopState) : List Chunk → ChunkLoopState
  | [] => st
  | c :: cs => chunkLoop llm (chunkLoopStep llm st c) cs

/-- Python `"\n\n".join(f"Chunk {n}:\n{s}" ...)` over the collected chunk
summaries. -/
def combineSummaries (l : List (Nat × String)) : String :=
  String.intercalate "\n\n"
    (l.map fun cs => "Chunk " ++ toString cs.1 ++ ":\n" ++ cs.2)

/-- The result of one `process_video_folder` run: the returned boolean,
the service calls issued, and the updated folder state. -/
structure PipelineResult where
  ok : Bool
  calls : List ServiceCall
  folder : VideoFolder
deriving DecidableEq, Repr

/-- `content_summarizer.process_video_folder`, abstracted over the
summarization service (`llm`, standing for `call_llm_api`): no SRT file
skips the folder; an existing final summary short-circuits; an unparsable
transcript fails; otherwise segment, run the chunk loop and attempt the
final summary, persisting it on success. -/
def process_video_folder (llm : PromptType → String → Option String)
    (folder : VideoFolder) : PipelineResult :=
  match folder.subtitles with
  | none => { ok := false, calls := [], folder := folder }
  | some subs =>
      if folder.final_summary_exists then
        { ok := true, calls := [], folder := folder }
      else if subs = [] then
        { ok := false, calls := [], folder := folder }
      else
        let chunks := create_5min_chunks subs 300
        let r := chunkLoop llm
          { summaries := [], calls := [],
            disk := folder.chunk_summaries_on_disk } chunks
        match llm PromptType.final (combineSummaries r.summaries) with
        | some _ =>
            { ok := true
              calls := r.calls ++ [ServiceCall.finalCall]
              folder := { folder with
                final_summary_exists := true
                chunk_summaries_on_disk := r.disk } }
        | none =>
            { ok := false
              calls := r.calls ++ [ServiceCall.finalCall]
              folder := { folder with chunk_summaries_on_disk := r.disk } }

end PodcastHarvester

open PodcastHarvester

theorem range'_snoc (s n : Nat) :
    List.range' s (n + 1) = List.range' s n ++ [s + n] := by
  induction n generalizing s with
  | zero => simp [List.range']
  | succ n ih =>
    rw [List.range'_succ, ih (s + 1), List.range'_succ]
    simp [Nat.add_assoc, Nat.add_comm, Nat.add_left_comm]

theorem alignment_dvd (d s : Nat) : d ∣ s - s % d := by
  have h := Nat.div_add_mod s d
  exact ⟨s / d, by omega⟩

theorem alignment_lt (d s q : Nat) (hd : 0 < d) (h : d * q + d ≤ s) :
    d * q < s - s % d := by
  have h1 := Nat.div_add_mod s d
  have h2 : q + 1 ≤ s / d := by
    rw [Nat.le_div_iff_mul_le hd]
    calc (q + 1) * d = d * q + d := by ring
    _ ≤ s := h
  have h3 : d * (q + 1) ≤ d * (s / d) := Nat.mul_le_mul_left d h2
  have h4 : d * (q + 1) = d * q + d := by ring
  omega

theorem chunkStep_inv {d : Nat} (hd : 0 < d) {st : ChunkBuildState}
    (h : ChunkInv d st) (s : SubtitleEvent) : ChunkInv d (chunkStep d st s) :=
  by
  obtain ⟨hdvd, hpw, hlt, hend, hnum, hcn, hcs, hemp⟩ := h
  unfold chunkStep
  by_cases hge : st.chunk_start_time + d ≤ s.start_time
  · simp only [if_pos hge]
    by_cases hcur : st.current = []
    · have hch : st.chunks = [] := hemp hcur
      simp only [if_pos hcur]
      refine ⟨?_, ?_, ?_, ?_, ?_, ?_, alignment_dvd d s.start_time, ?_⟩ <;>
        simp_all
    · simp only [if_neg hcur]
      obtain ⟨q, hq⟩ := hcs
      constructor
      · intro c hc
        rcases List.mem_append.mp hc with hc | hc
        · exact hdvd c hc
        · simp at hc; subst hc; exact ⟨q, hq⟩
      constructor
      · rw [List.map_append, List.pairwise_append]
        refine ⟨hpw, by simp, ?_⟩
        intro a ha b hb
        simp at ha hb
        obtain ⟨c, hc, rfl⟩ := ha
        subst hb
        exact hlt c hc
      constructor
      · intro c hc
        rcases List.mem_append.mp hc with hc | hc
        · exact lt_trans (hlt c hc)
            (by simpa [hq] using alignment_lt d s.start_time q hd (by omega))
        · simp at hc; subst hc
          simpa [hq] using alignment_lt d s.start_time q hd (by omega)
      constructor
      · intro c hc
        rcases List.mem_append.mp hc with hc | hc
        · exact hend c hc
        · simp at hc; subst hc; rfl
      constructor
      · rw [List.map_append, hnum, List.length_append]
        simp [range'_snoc, hcn, Nat.add_comm]
      constructor
      · simp [hcn]
      exact ⟨alignment_dvd d s.start_time, by simp⟩
  · simp only [if_neg hge]
    refine ⟨hdvd, hpw, hlt, hend, hnum, hcn, hcs, ?_⟩
    intro hx
    exact absurd hx (by simp)

theorem foldl_chunkStep_inv {d : Nat} (hd : 0 < d) :
    ∀ (subs : List SubtitleEvent) (st : ChunkBuildState),
      ChunkInv d st → ChunkInv d (subs.foldl (chunkStep d) st)
  | [], _, h => h
  | s :: subs, st, h =>
      foldl_chunkStep_inv hd subs (chunkStep d st s) (chunkStep_inv hd h s)

/-- C8: for events at t = 0, 290, 305, 610 with a 300-second window,
segmentation yields exactly 3 chunks with start times 0, 300 and 600; the
event at 290 lands in chunk 1 (text "a b") and the events at 305 and 610
open chunks 2 and 3; the empty event sequence yields the empty chunk
sequence. -/
theorem chunk_boundary_correctness :
    (create_5min_chunks
        [⟨0, "a"⟩, ⟨290, "b"⟩, ⟨305, "c"⟩, ⟨610, "d"⟩] 300).map
        (fun c => (c.chunk_number, c.start_time, c.text)) =
      [(1, 0, "a b"), (2, 300, "c"), (3, 600, "d")] ∧
    create_5min_chunks [] 300 = [] := by
  constructor <;> decide

/-- Appending the final partial chunk keeps the segmentation invariants. -/
theorem finishChunks_inv {d : Nat} (st : ChunkBuildState) (h : ChunkInv d st) :
    (∀ c ∈ finishChunks st, d ∣ c.start_time) ∧
    ((finishChunks st).map (·.start_time)).Pairwise (· < ·) ∧
    (∀ c ∈ (finishChunks st).dropLast, c.end_time = c.start_time + d) ∧
    (finishChunks st).map (·.chunk_number) =
      List.range' 1 (finishChunks st).length := by
  obtain ⟨hdvd, hpw, hlt, hend, hnum, hcn, hcs, -⟩ := h
  unfold finishChunks
  cases hlast : st.current.getLast? with
  | none =>
    refine ⟨hdvd, hpw, ?_, hnum⟩
    intro c hc
    exact hend c (List.mem_of_mem_dropLast hc)
  | some last =>
    refine ⟨?_, ?_, ?_, ?_⟩
    · intro c hc
      rcases List.mem_append.mp hc with hc | hc
      · exact hdvd c hc
      · simp at hc; subst hc; exact hcs
    · rw [List.map_append, List.pairwise_append]
      refine ⟨hpw, by simp, ?_⟩
      intro a ha b hb
      simp at ha hb
      obtain ⟨c, hc, rfl⟩ := ha
      subst hb
      exact hlt c hc
    · intro c hc
      rw [List.dropLast_concat] at hc
      exact hend c hc
    · rw [List.map_append, hnum, List.length_append]
      simp [range'_snoc, hcn, Nat.add_comm]

/-- C10: for every input event sequence and every positive chunk duration,
each emitted chunk's start time is a (non-negative) integer multiple of the
duration, the start times are strictly increasing in emission order, every
non-final chunk's end time equals its start time plus the duration, and the
chunk numbers are exactly 1..N in emission order. -/
theorem chunk_segmentation_invariants (subs : List SubtitleEvent) (d : Nat)
    (hd : 0 < d) :
    (∀ c ∈ create_5min_chunks subs d, d ∣ c.start_time) ∧
    ((create_5min_chunks subs d).map (·.start_time)).Pairwise (· < ·) ∧
    (∀ c ∈ (create_5min_chunks subs d).dropLast,
      c.end_time = c.start_time + d) ∧
    (create_5min_chunks subs d).map (·.chunk_number) =
      List.range' 1 (create_5min_chunks subs d).length :=
  finishChunks_inv _ (foldl_chunkStep_inv hd subs
    { chunks := [], current := [], chunk_start_time := 0, chunk_number := 1 }
    (by refine ⟨?_, ?_, ?_, ?_, ?_, ?_, ?_, ?_⟩ <;> simp))

/-- Witness for chunk_segmentation_invariants at a concrete transcript and
the production duration of 300 seconds. -/
theorem chunk_segmentation_invariants_witness :
    (create_5min_chunks
        [⟨0, "a"⟩, ⟨290, "b"⟩, ⟨305, "c"⟩, ⟨610, "d"⟩] 300).map
        (·.chunk_number) =
      List.range' 1
        (create_5min_chunks
          [⟨0, "a"⟩, ⟨290, "b"⟩, ⟨305, "c"⟩, ⟨610, "d"⟩] 300).length :=
  (chunk_segmentation_invariants
    [⟨0, "a"⟩, ⟨290, "b"⟩, ⟨305, "c"⟩, ⟨610, "d"⟩] 300 (by decide)).2.2.2

theorem callLoop_all_retriable (responses : Nat → ApiOutcome) :
    ∀ (fuel a : Nat), (∀ k, k < fuel → RetriableOutcome (responses (a + k))) →
      callLoop responses a fuel = (none, a + fuel)
  | 0, a, _ => by simp [callLoop]
  | fuel + 1, a, h => by
    have h0 : RetriableOutcome (responses a) := by
      simpa using h 0 (Nat.succ_pos fuel)
    unfold callLoop
    cases hr : responses a with
    | success c => rw [hr] at h0; exact absurd h0 (by simp [RetriableOutcome])
    | missingChoices => rw [hr] at h0; exact absurd h0 (by simp [RetriableOutcome])
    | badChoiceShape | malformedBody | non200 | httpError | transportError =>
      have := callLoop_all_retriable responses fuel (a + 1)
        (fun k hk => by
          have := h (k + 1) (by omega)
          simpa [Nat.add_assoc, Nat.add_comm, Nat.add_left_comm] using this)
      simp only [this]
      exact congrArg _ (by omega)

theorem callLoop_missing (responses : Nat → ApiOutcome) :
    ∀ (j fuel a : Nat), j < fuel →
      (∀ k, k < j → RetriableOutcome (responses (a + k))) →
      responses (a + j) = .missingChoices →
      callLoop responses a fuel = (none, a + j + 1)
  | 0, 0, _, hj, _, _ => absurd hj (by omega)
  | 0, fuel + 1, a, _, _, hm => by
    unfold callLoop
    rw [show a + 0 = a by omega] at hm
    rw [hm]
  | j + 1, 0, _, hj, _, _ => absurd hj (by omega)
  | j + 1, fuel + 1, a, hj, hr, hm => by
    have h0 : RetriableOutcome (responses a) := by
      simpa using hr 0 (Nat.succ_pos j)
    unfold callLoop
    cases hx : responses a with
    | success c => rw [hx] at h0; exact absurd h0 (by simp [RetriableOutcome])
    | missingChoices => rw [hx] at h0; exact absurd h0 (by simp [RetriableOutcome])
    | badChoiceShape | malformedBody | non200 | httpError | transportError =>
      have := callLoop_missing responses j fuel (a + 1) (by omega)
        (fun k hk => by
          have := hr (k + 1) (by omega)
          simpa [Nat.add_assoc, Nat.add_comm, Nat.add_left_comm] using this)
        (by rw [show a + 1 + j = a + (j + 1) by omega]; exact hm)
      simp only [this]
      exact congrArg _ (by omega)

/-- C5 counterexample: with max_retries = 3 and every attempt yielding a
200 response whose body has no usable choices list, call_llm_api returns
failure after a single request — it does not retry on a response missing
the expected completion field, contrary to the claim. -/
theorem llm_missing_field_not_retried :
    call_llm_api (fun _ => ApiOutcome.missingChoices) 3 = (none, 1) ∧
    (call_llm_api (fun _ => ApiOutcome.missingChoices) 3).2 ≠ 3 := by
  constructor <;> decide

/-- C5 amended: the client retries up to the configured maximum on a non-2xx
response, a transport error, a malformed response body, and a body whose
first choice lacks message/content; exhausting the retries returns the
failure value none (never an exception). However a 200 response whose body
is missing (or has an empty) choices list returns the failure value
immediately on its first occurrence, after j earlier retriable attempts. -/
theorem call_llm_api_retry_policy (responses : Nat → ApiOutcome) (m j : Nat) :
    ((∀ i, i < m → RetriableOutcome (responses i)) →
      call_llm_api responses m = (none, m)) ∧
    (j < m → responses j = .missingChoices →
      (∀ i, i < j → RetriableOutcome (responses i)) →
      call_llm_api responses m = (none, j + 1)) := by
  constructor
  · intro h
    have := callLoop_all_retriable responses m 0 (fun k hk => by simpa using h k hk)
    simpa [call_llm_api] using this
  · intro hj hm hr
    have := callLoop_missing responses j m 0 hj
      (fun k hk => by simpa using hr k hk) (by simpa using hm)
    simpa [call_llm_api] using this

/-- Witness for call_llm_api_retry_policy: three transport errors exhaust
max_retries = 3 with three requests; a transport error followed by a
missing-choices body stops after the second request. -/
theorem call_llm_api_retry_policy_witness :
    call_llm_api (fun _ => ApiOutcome.transportError) 3 = (none, 3) ∧
    call_llm_api
      (fun i => if i = 0 then ApiOutcome.transportError
                else ApiOutcome.missingChoices) 3 = (none, 2) :=
  ⟨(call_llm_api_retry_policy (fun _ => ApiOutcome.transportError) 3 0).1
      (fun _ _ => trivial),
   (call_llm_api_retry_policy
      (fun i => if i = 0 then ApiOutcome.transportError
                else ApiOutcome.missingChoices) 3 1).2
      (by decide) (by decide)
      (fun i hi => by
        have h0 : i = 0 := by omega
        subst h0
        exact trivial)⟩

theorem lookup_none_of_not_mem_keys {α : Type} (l : List (String × α))
    (k : String) (h : k ∉ l.map Prod.fst) : List.lookup k l = none := by
  induction l with
  | nil => rfl
  | cons p l ih =>
    simp only [List.map_cons, List.mem_cons] at h
    push_neg at h
    rw [List.lookup_cons]
    have hbeq : (k == p.1) = false := by simpa using h.1
    rw [hbeq]
    exact ih h.2

theorem nodup_keys_unique {α : Type} {l : List (String × α)} {k : String}
    {a b : α} (hnd : (l.map Prod.fst).Nodup) (ha : (k, a) ∈ l)
    (hb : (k, b) ∈ l) : a = b := by
  induction l with
  | nil => cases ha
  | cons p l ih =>
    simp only [List.map_cons, List.nodup_cons] at hnd
    rcases List.mem_cons.mp ha with ha | ha <;>
      rcases List.mem_cons.mp hb with hb | hb
    · rw [← ha] at hb
      injection hb with h1 h2
      exact h2.symm
    · rw [← ha] at hnd
      exact absurd (List.mem_map_of_mem Prod.fst hb) (by simpa using hnd.1)
    · rw [← hb] at hnd
      exact absurd (List.mem_map_of_mem Prod.fst ha) (by simpa using hnd.1)
    · exact ih hnd.2 ha hb

theorem actually_subset_existing (onDisk : String → Bool)
    (dv : List (String × DownloadedVideo)) :
    ∀ x ∈ get_actually_existing_video_ids onDisk dv,
      x ∈ get_existing_video_ids onDisk dv false := by
  intro x hx
  rw [get_actually_existing_video_ids, List.mem_filterMap] at hx
  obtain ⟨p, hp, hf⟩ := hx
  rw [get_existing_video_ids, List.mem_filterMap]
  refine ⟨p, hp, ?_⟩
  cases hmf : mainFile p.2.files with
  | none => rw [hmf] at hf; cases hf
  | some f =>
    rw [hmf] at hf
    dsimp only at hf ⊢
    split_ifs at hf with h1 h2
    rw [if_neg h1, if_pos h2]
    exact hf

/-- C1: for every channel index, control file and redownload policy, the
planned set is a subset of the indexed ids, and when redownload_deleted is
false the plan is disjoint from the ids whose recorded primary-media file
currently exists on disk. -/
theorem reconciliation_set_algebra (video_ids : List String)
    (onDisk : String → Bool) (dv : List (String × DownloadedVideo))
    (rd : Bool) :
    (∀ x ∈ downloadPlan video_ids onDisk dv rd, x ∈ video_ids) ∧
    (∀ x ∈ downloadPlan video_ids onDisk dv false,
      x ∉ get_actually_existing_video_ids onDisk dv) := by
  constructor
  · intro x hx
    exact (List.mem_filter.mp hx).1
  · intro x hx hact
    have hex : x ∈ get_existing_video_ids onDisk dv false :=
      actually_subset_existing onDisk dv x hact
    have h2 := (List.mem_filter.mp hx).2
    simp only [downloadPlan] at h2
    rw [if_neg (by simp)] at h2
    simp [hex] at h2

/-- Witness for reconciliation_set_algebra at a one-item index and an
empty control ledger. -/
theorem reconciliation_set_algebra_witness :
    ("v1" ∈ downloadPlan ["v1"] (fun _ => false) [] true ∧
      "v1" ∈ ["v1"]) ∧
    ("v1" ∈ downloadPlan ["v1"] (fun _ => false) [] false ∧
      "v1" ∉ get_actually_existing_video_ids (fun _ => false) []) :=
  ⟨⟨by decide,
    (reconciliation_set_algebra ["v1"] (fun _ => false) [] true).1 "v1"
      (by decide)⟩,
   ⟨by decide,
    (reconciliation_set_algebra ["v1"] (fun _ => false) [] false).2 "v1"
      (by decide)⟩⟩

/-- C9: a control entry recording neither an audio nor a video path is
excluded from both skip sets (for both values of redownload_deleted), so
such an id re-enters every fetch plan whenever the index lists it. -/
theorem entry_without_media_reenters_plan (onDisk : String → Bool)
    (dv : List (String × DownloadedVideo)) (v : String)
    (video_ids : List String)
    (h : ∀ e, (v, e) ∈ dv → e.files.audio = none ∧ e.files.video = none) :
    (∀ rd, v ∉ get_existing_video_ids onDisk dv rd) ∧
    v ∉ get_actually_existing_video_ids onDisk dv ∧
    (∀ rd, v ∈ video_ids → v ∈ downloadPlan video_ids onDisk dv rd) := by
  have hmf : ∀ e, (v, e) ∈ dv → mainFile e.files = none := by
    intro e he
    obtain ⟨h1, h2⟩ := h e he
    simp [mainFile, h1, h2]
  have hne : ∀ rd, v ∉ get_existing_video_ids onDisk dv rd := by
    intro rd hc
    rw [get_existing_video_ids, List.mem_filterMap] at hc
    obtain ⟨⟨k, e⟩, hp, hf⟩ := hc
    cases hm : mainFile e.files with
    | none => rw [hm] at hf; cases hf
    | some f =>
      have hk : k = v := by
        rw [hm] at hf
        dsimp only at hf
        split_ifs at hf <;> simpa using hf
      subst hk
      rw [hmf e hp] at hm
      cases hm
  have hna : v ∉ get_actually_existing_video_ids onDisk dv := by
    intro hc
    rw [get_actually_existing_video_ids, List.mem_filterMap] at hc
    obtain ⟨⟨k, e⟩, hp, hf⟩ := hc
    cases hm : mainFile e.files with
    | none => rw [hm] at hf; cases hf
    | some f =>
      have hk : k = v := by
        rw [hm] at hf
        dsimp only at hf
        split_ifs at hf <;> simpa using hf
      subst hk
      rw [hmf e hp] at hm
      cases hm
  refine ⟨hne, hna, ?_⟩
  intro rd hv
  rw [downloadPlan]
  rw [List.mem_filter]
  refine ⟨hv, ?_⟩
  cases rd with
  | false => simp [hne false]
  | true => simp [hna]

/-- Witness for entry_without_media_reenters_plan at a ledger recording one
entry with no audio/video path. -/
theorem entry_without_media_reenters_plan_witness :
    "v1" ∉ get_actually_existing_video_ids (fun _ => true)
      [("v1", { title := "t", files := { audio := none, video := none } })] ∧
    "v1" ∈ downloadPlan ["v1"] (fun _ => true)
      [("v1", { title := "t", files := { audio := none, video := none } })]
      false :=
  ⟨(entry_without_media_reenters_plan (fun _ => true)
      [("v1", { title := "t", files := { audio := none, video := none } })]
      "v1" ["v1"]
      (fun e he => by
        have : e = { title := "t",
                     files := { audio := none, video := none } } := by
          simpa using he
        subst this
        exact ⟨rfl, rfl⟩)).2.1,
   (entry_without_media_reenters_plan (fun _ => true)
      [("v1", { title := "t", files := { audio := none, video := none } })]
      "v1" ["v1"]
      (fun e he => by
        have : e = { title := "t",
                     files := { audio := none, video := none } } := by
          simpa using he
        subst this
        exact ⟨rfl, rfl⟩)).2.2 false (by decide)⟩

theorem dictUpdate_keys {α : Type} (b o : List (String × α)) :
    (dictUpdate b o).map Prod.fst =
      b.map Prod.fst ++
        (o.filter fun q => !(b.any fun p => p.1 == q.1)).map Prod.fst := by
  unfold dictUpdate
  rw [List.map_append]
  congr 1
  rw [List.map_map]
  apply List.map_congr_left
  intro p hp
  cases h : List.lookup p.1 o <;> simp [h]

theorem mem_dictUpdate_of_not_overlay {α : Type} {b o : List (String × α)}
    {k : String} {v : α} (hmem : (k, v) ∈ b) (hno : k ∉ o.map Prod.fst) :
    (k, v) ∈ dictUpdate b o := by
  unfold dictUpdate
  apply List.mem_append_left
  have himg :
      (fun p : String × α =>
        match List.lookup p.1 o with
        | some v => (p.1, v)
        | none => p) (k, v) = (k, v) := by
    simp [lookup_none_of_not_mem_keys o k hno]
  exact himg ▸ List.mem_map_of_mem _ hmem

theorem eq_of_mem_dictUpdate {α : Type} {b o : List (String × α)}
    {k : String} {v w : α} (hnd : (b.map Prod.fst).Nodup)
    (hno : k ∉ o.map Prod.fst) (hv : (k, v) ∈ b)
    (hw : (k, w) ∈ dictUpdate b o) : w = v := by
  unfold dictUpdate at hw
  rcases List.mem_append.mp hw with hw | hw
  · rw [List.mem_map] at hw
    obtain ⟨p, hp, hpe⟩ := hw
    cases h : List.lookup p.1 o with
    | some u =>
      rw [h] at hpe
      dsimp only at hpe
      injection hpe with h1 h2
      rw [h1] at h
      simp [lookup_none_of_not_mem_keys o k hno] at h
    | none =>
      rw [h] at hpe
      dsimp only at hpe
      rw [hpe] at hp
      exact nodup_keys_unique hnd hp hv
  · have hko : (k, w) ∈ o := List.mem_of_mem_filter hw
    exact absurd (List.mem_map_of_mem Prod.fst hko) hno

theorem dictUpdate_keys_nodup {α : Type} {b o : List (String × α)}
    (hb : (b.map Prod.fst).Nodup) (ho : (o.map Prod.fst).Nodup) :
    ((dictUpdate b o).map Prod.fst).Nodup := by
  rw [dictUpdate_keys]
  apply List.Nodup.append hb
  · exact List.Nodup.sublist
      (List.Sublist.map Prod.fst (List.filter_sublist o)) ho
  · intro k hk1 hk2
    rw [List.mem_map] at hk2
    obtain ⟨q, hq, rfl⟩ := hk2
    have hpred := List.of_mem_filter hq
    rw [List.mem_map] at hk1
    obtain ⟨p, hp, hpe⟩ := hk1
    simp only [Bool.not_eq_true'] at hpred
    rw [List.any_eq_false] at hpred
    exact absurd (by simpa using hpe) (hpred p hp)

/-- C2: an item X recorded in the previous control ledger with a main file
that no longer exists on disk, and no longer discovered by the rescan.
When deleted records are preserved (redownload_deleted false), the merged
control file still lists X and the fetch plan excludes X; with
redownload_deleted true, X is dropped from the on-disk id set and the plan
includes X whenever the index still lists it. -/
theorem deletion_policy_scenario (ex cur : ControlData)
    (onDisk : String → Bool) (video_ids : List String) (X f : String)
    (eX : DownloadedVideo)
    (hmem : (X, eX) ∈ ex.downloaded_videos)
    (hnd : (ex.downloaded_videos.map Prod.fst).Nodup)
    (hfile : mainFile eX.files = some f)
    (hne : f ≠ "")
    (hdisk : onDisk f = false)
    (hres : X ∉ cur.downloaded_videos.map Prod.fst) :
    X ∈ (create_control_file true (some ex) cur).downloaded_videos.map
        Prod.fst ∧
    X ∉ downloadPlan video_ids onDisk
        (create_control_file true (some ex) cur).downloaded_videos false ∧
    X ∉ get_actually_existing_video_ids onDisk
        (create_control_file true (some ex) cur).downloaded_videos ∧
    (X ∈ video_ids →
      X ∈ downloadPlan video_ids onDisk
        (create_control_file true (some ex) cur).downloaded_videos true) := by
  have hctrl : (create_control_file true (some ex) cur).downloaded_videos =
      dictUpdate ex.downloaded_videos cur.downloaded_videos := rfl
  rw [hctrl]
  have hmerged : (X, eX) ∈ dictUpdate ex.downloaded_videos
      cur.downloaded_videos := mem_dictUpdate_of_not_overlay hmem hres
  have hskip : X ∈ get_existing_video_ids onDisk
      (dictUpdate ex.downloaded_videos cur.downloaded_videos) false := by
    rw [get_existing_video_ids, List.mem_filterMap]
    refine ⟨(X, eX), hmerged, ?_⟩
    rw [hfile]
    dsimp only
    rw [if_neg hne, if_neg (by simp [hdisk]), if_neg (by simp)]
  have hnact : X ∉ get_actually_existing_video_ids onDisk
      (dictUpdate ex.downloaded_videos cur.downloaded_videos) := by
    intro hc
    rw [get_actually_existing_video_ids, List.mem_filterMap] at hc
    obtain ⟨⟨k, e⟩, hp, hfn⟩ := hc
    cases hm : mainFile e.files with
    | none => rw [hm] at hfn; cases hfn
    | some g =>
      have hk : k = X := by
        rw [hm] at hfn
        dsimp only at hfn
        split_ifs at hfn <;> simpa using hfn
      subst hk
      have he : e = eX := eq_of_mem_dictUpdate hnd hres hmem hp
      subst he
      rw [hfile] at hfn
      dsimp only at hfn
      rw [if_neg hne, if_neg (by simp [hdisk])] at hfn
      cases hfn
  refine ⟨List.mem_map_of_mem Prod.fst hmerged, ?_, hnact, ?_⟩
  · intro hplan
    have h2 := (List.mem_filter.mp hplan).2
    simp only [downloadPlan] at h2
    rw [if_neg (by simp)] at h2
    simp [hskip] at h2
  · intro hX
    rw [downloadPlan, List.mem_filter]
    refine ⟨hX, ?_⟩
    rw [if_pos rfl]
    simp [hnact]

/-- Witness for deletion_policy_scenario: previous ledger records X with
file a.mp3, the rescan finds nothing, a.mp3 is gone from disk. -/
theorem deletion_policy_scenario_witness :
    "X" ∈ (create_control_file true
        (some { downloaded_videos :=
                  [("X", { title := "t",
                           files := { audio := some "a.mp3",
                                      video := none } })],
                total_videos := 1 })
        { downloaded_videos := [], total_videos := 0 }).downloaded_videos.map
        Prod.fst ∧
    "X" ∉ downloadPlan ["X"] (fun _ => false)
        (create_control_file true
          (some { downloaded_videos :=
                    [("X", { title := "t",
                             files := { audio := some "a.mp3",
                                        video := none } })],
                  total_videos := 1 })
          { downloaded_videos := [], total_videos := 0 }).downloaded_videos
        false := by
  have h := deletion_policy_scenario
    { downloaded_videos :=
        [("X", { title := "t",
                 files := { audio := some "a.mp3", video := none } })],
      total_videos := 1 }
    { downloaded_videos := [], total_videos := 0 }
    (fun _ => false) ["X"] "X" "a.mp3"
    { title := "t", files := { audio := some "a.mp3", video := none } }
    (by decide) (by decide) (by decide) (by decide) (by decide) (by decide)
  exact ⟨h.1, h.2.1⟩

theorem dictInsert_not_mem {α : Type} {m : List (String × α)} {k : String}
    (v : α) (h : k ∉ m.map Prod.fst) : dictInsert m k v = m ++ [(k, v)] := by
  unfold dictInsert
  rw [if_neg]
  intro hc
  rw [List.any_eq_true] at hc
  obtain ⟨p, hp, hb⟩ := hc
  rw [beq_iff_eq] at hb
  exact h (hb ▸ List.mem_map_of_mem Prod.fst hp)

theorem scan_fold_inv :
    ∀ (ds : List InfoDescriptor) (c : ControlData),
      (c.downloaded_videos.map Prod.fst).Nodup →
      c.total_videos = c.downloaded_videos.length →
      (ds.filterMap fun d =>
        if d.video_id = "" then none else some d.video_id).Nodup →
      (∀ k ∈ ds.filterMap fun d =>
          if d.video_id = "" then none else some d.video_id,
        k ∉ c.downloaded_videos.map Prod.fst) →
      ((ds.foldl scanStep c).total_videos =
          (ds.foldl scanStep c).downloaded_videos.length ∧
        ((ds.foldl scanStep c).downloaded_videos.map Prod.fst).Nodup)
  | [], c, h1, h2, _, _ => ⟨h2, h1⟩
  | d :: ds, c, h1, h2, h3, h4 => by
    rw [List.foldl_cons]
    by_cases hid : d.video_id = ""
    · rw [show scanStep c d = c from by rw [scanStep, if_pos hid]]
      refine scan_fold_inv ds c h1 h2 ?_ ?_
      · simpa [List.filterMap_cons, hid] using h3
      · intro k hk
        exact h4 k (by simpa [List.filterMap_cons, hid] using hk)
    · have hhead : d.video_id ∉ c.downloaded_videos.map Prod.fst :=
        h4 d.video_id (by simp [List.filterMap_cons, hid])
      have hscan : scanStep c d =
          { downloaded_videos :=
              c.downloaded_videos ++ [(d.video_id, entryOfDescriptor d)]
            total_videos := c.total_videos + 1 } := by
        rw [scanStep, if_neg hid, dictInsert_not_mem _ hhead]
      rw [hscan]
      have h3' := h3
      rw [List.filterMap_cons] at h3'
      simp only [hid, if_neg, ite_false] at h3'
      rw [List.nodup_cons] at h3'
      refine scan_fold_inv ds _ ?_ ?_ h3'.2 ?_
      · rw [List.map_append, List.nodup_append]
        refine ⟨h1, by simp, ?_⟩
        intro a ha hb
        simp at hb
        subst hb
        exact hhead ha
      · simp [h2]
      · intro k hk
        rw [List.map_append, List.mem_append]
        rintro (hc | hc)
        · exact h4 k (by simp [List.filterMap_cons, hid, hk]) hc
        · simp at hc
          subst hc
          exact h3'.1 hk

/-- C6 counterexample: two info.json descriptors carrying the same id make
the plain rescan record total_videos = 2 while the entries map has a single
key, so the stats total does not equal the number of entry keys. -/
theorem control_stats_total_counterexample :
    (create_control_file false none (scan_channel_directory
        [{ video_id := "X", title := "t1",
           files := { audio := none, video := none } },
         { video_id := "X", title := "t2",
           files := { audio := none, video := none } }])).total_videos = 2 ∧
    ((create_control_file false none (scan_channel_directory
        [{ video_id := "X", title := "t1",
           files := { audio := none, video := none } },
         { video_id := "X", title := "t2",
           files := { audio := none, video := none } }])).downloaded_videos.map
        Prod.fst).length = 1 ∧
    ¬((create_control_file false none (scan_channel_directory
        [{ video_id := "X", title := "t1",
           files := { audio := none, video := none } },
         { video_id := "X", title := "t2",
           files := { audio := none, video := none } }])).total_videos =
      ((create_control_file false none (scan_channel_directory
        [{ video_id := "X", title := "t1",
           files := { audio := none, video := none } },
         { video_id := "X", title := "t2",
           files := { audio := none, video := none } }])).downloaded_videos.map
        Prod.fst).length) := by
  refine ⟨?_, ?_, ?_⟩ <;> decide

/-- C6 amended: the stats total equals the number of keys of the entries
map for every control record produced by merging a rescan with a previous
control file, and for a plain rescan whenever the scanned descriptors carry
pairwise distinct (nonempty) ids; with duplicate descriptor ids the plain
rescan counts each descriptor while the entries map keeps one entry per
id. -/
theorem control_stats_total_invariant (ex cur : ControlData)
    (ds : List InfoDescriptor)
    (hex : (ex.downloaded_videos.map Prod.fst).Nodup)
    (hcur : (cur.downloaded_videos.map Prod.fst).Nodup)
    (hds : (ds.filterMap fun d =>
      if d.video_id = "" then none else some d.video_id).Nodup) :
    ((create_control_file true (some ex) cur).total_videos =
        (create_control_file true (some ex) cur).downloaded_videos.length ∧
      ((create_control_file true (some ex) cur).downloaded_videos.map
        Prod.fst).Nodup) ∧
    ((scan_channel_directory ds).total_videos =
        (scan_channel_directory ds).downloaded_videos.length ∧
      ((scan_channel_directory ds).downloaded_videos.map
        Prod.fst).Nodup) := by
  constructor
  · exact ⟨rfl, dictUpdate_keys_nodup hex hcur⟩
  · exact scan_fold_inv ds { downloaded_videos := [], total_videos := 0 }
      (by simp) rfl hds (by simp)

/-- Witness for control_stats_total_invariant at a one-entry previous
ledger, an empty rescan, and a two-descriptor scan with distinct ids. -/
theorem control_stats_total_invariant_witness :
    (create_control_file true
        (some { downloaded_videos :=
                  [("X", { title := "t",
                           files := { audio := none, video := none } })],
                total_videos := 1 })
        { downloaded_videos := [], total_videos := 0 }).total_videos =
      (create_control_file true
        (some { downloaded_videos :=
                  [("X", { title := "t",
                           files := { audio := none, video := none } })],
                total_videos := 1 })
        { downloaded_videos := [],
          total_videos := 0 }).downloaded_videos.length ∧
    (scan_channel_directory
        [{ video_id := "A", title := "t1",
           files := { audio := none, video := none } },
         { video_id := "B", title := "t2",
           files := { audio := none, video := none } }]).total_videos =
      (scan_channel_directory
        [{ video_id := "A", title := "t1",
           files := { audio := none, video := none } },
         { video_id := "B", title := "t2",
           files := { audio := none,
                      video := none } }]).downloaded_videos.length := by
  have h1 := control_stats_total_invariant
    { downloaded_videos :=
        [("X", { title := "t", files := { audio := none, video := none } })],
      total_videos := 1 }
    { downloaded_videos := [], total_videos := 0 }
    [] (by decide) (by decide) (by decide)
  have h2 := control_stats_total_invariant
    { downloaded_videos := [], total_videos := 0 }
    { downloaded_videos := [], total_videos := 0 }
    [{ video_id := "A", title := "t1",
       files := { audio := none, video := none } },
     { video_id := "B", title := "t2",
       files := { audio := none, video := none } }]
    (by decide) (by decide) (by decide)
  exact ⟨h1.1.1, h2.2.1⟩

theorem mem_keys_of_lookup_some {κ α : Type} [BEq κ] [LawfulBEq κ]
    {l : List (κ × α)} {k : κ} {v : α} (h : List.lookup k l = some v) :
    k ∈ l.map Prod.fst := by
  induction l with
  | nil => cases h
  | cons p l ih =>
    rw [List.lookup_cons] at h
    cases hkp : k == p.1 with
    | true =>
      have : k = p.1 := by simpa using hkp
      simp [this]
    | false =>
      rw [hkp] at h
      dsimp only at h
      simp [ih h]

theorem any_beq_iff_mem_keys {α : Type} (m : List (String × α)) (j : String) :
    (m.any fun p => p.1 == j) = true ↔ j ∈ m.map Prod.fst := by
  rw [List.any_eq_true]
  constructor
  · rintro ⟨p, hp, hb⟩
    rw [beq_iff_eq] at hb
    exact hb ▸ List.mem_map_of_mem Prod.fst hp
  · intro hj
    rw [List.mem_map] at hj
    obtain ⟨p, hp, he⟩ := hj
    exact ⟨p, hp, by simp [he]⟩

theorem lookup_append_single_ne {κ α : Type} [BEq κ] [LawfulBEq κ]
    (m : List (κ × α)) (j k : κ) (v : α) (h : k ≠ j) :
    List.lookup k (m ++ [(j, v)]) = List.lookup k m := by
  induction m with
  | nil =>
    rw [List.nil_append, List.lookup_cons]
    have hb : (k == j) = false := by simpa using h
    rw [hb]
  | cons p l ih =>
    rw [List.cons_append, List.lookup_cons, List.lookup_cons]
    cases hkp : k == p.1 with
    | true => rfl
    | false => exact ih

theorem lookup_append_single_self {κ α : Type} [BEq κ] [LawfulBEq κ]
    (m : List (κ × α)) (j : κ) (v : α) (hmem : ∀ p ∈ m, p.1 ≠ j) :
    List.lookup j (m ++ [(j, v)]) = some v := by
  induction m with
  | nil =>
    rw [List.nil_append, List.lookup_cons]
    simp
  | cons p l ih =>
    rw [List.cons_append, List.lookup_cons]
    have hb : (j == p.1) = false := by
      simpa using Ne.symm (hmem p (by simp))
    rw [hb]
    exact ih fun q hq => hmem q (by simp [hq])

theorem lookup_replace_self {α : Type} (m : List (String × α)) (j : String)
    (v : α) (h : j ∈ m.map Prod.fst) :
    List.lookup j (m.map fun p => if p.1 = j then (j, v) else p) = some v := by
  induction m with
  | nil => simp at h
  | cons p l ih =>
    rw [List.map_cons]
    by_cases hp : p.1 = j
    · rw [if_pos hp, List.lookup_cons]
      simp
    · rw [if_neg hp, List.lookup_cons]
      have hb : (j == p.1) = false := by simpa using Ne.symm hp
      rw [hb]
      dsimp only
      apply ih
      rw [List.map_cons, List.mem_cons] at h
      rcases h with he | he
      · exact absurd he.symm hp
      · exact he

theorem lookup_replace_ne {α : Type} (m : List (String × α)) (j k : String)
    (v : α) (h : k ≠ j) :
    List.lookup k (m.map fun p => if p.1 = j then (j, v) else p) =
      List.lookup k m := by
  induction m with
  | nil => rfl
  | cons p l ih =>
    rw [List.map_cons]
    by_cases hp : p.1 = j
    · rw [if_pos hp, List.lookup_cons, List.lookup_cons]
      have h1 : (k == j) = false := by simpa using h
      have h2 : (k == p.1) = false := by simpa [hp] using h
      rw [h1, h2]
      exact ih
    · rw [if_neg hp, List.lookup_cons, List.lookup_cons]
      cases hkp : k == p.1 with
      | true => rfl
      | false => exact ih

theorem lookup_dictInsert_self {α : Type} (m : List (String × α)) (j : String)
    (v : α) : List.lookup j (dictInsert m j v) = some v := by
  unfold dictInsert
  split_ifs with h
  · exact lookup_replace_self m j v ((any_beq_iff_mem_keys m j).mp h)
  · refine lookup_append_single_self m j v ?_
    intro p hp hc
    exact h ((any_beq_iff_mem_keys m j).mpr
      (hc ▸ List.mem_map_of_mem Prod.fst hp))

theorem lookup_dictInsert_ne {α : Type} (m : List (String × α)) (j k : String)
    (v : α) (h : k ≠ j) :
    List.lookup k (dictInsert m j v) = List.lookup k m := by
  unfold dictInsert
  split_ifs
  · exact lookup_replace_ne m j k v h
  · exact lookup_append_single_ne m j k v h

theorem mem_keys_dictInsert {α : Type} (m : List (String × α)) (j x : String)
    (v : α) :
    x ∈ (dictInsert m j v).map Prod.fst ↔ x ∈ m.map Prod.fst ∨ x = j := by
  unfold dictInsert
  split_ifs with h
  · have hkeys : (m.map fun p => if p.1 = j then (j, v) else p).map Prod.fst =
        m.map Prod.fst := by
      rw [List.map_map]
      apply List.map_congr_left
      intro p hp
      by_cases hc : p.1 = j <;> simp [hc]
    rw [hkeys]
    have hj : j ∈ m.map Prod.fst := (any_beq_iff_mem_keys m j).mp h
    constructor
    · exact Or.inl
    · rintro (hx | rfl)
      · exact hx
      · exact hj
  · rw [List.map_append]
    simp

theorem keys_update_videos (k : String) :
    ∀ (vs : List VideoRecord) (m : List (String × VideoRecord)),
      k ∈ (update_videos m vs).map Prod.fst ↔
        k ∈ m.map Prod.fst ∨ k ∈ vs.map (·.id)
  | [], m => by simp [update_videos]
  | v :: vs, m => by
    simp only [update_videos]
    rw [keys_update_videos k vs]
    cases hl : List.lookup v.id m with
    | none =>
      dsimp only
      rw [mem_keys_dictInsert]
      simp only [List.map_cons, List.mem_cons]
      tauto
    | some old =>
      dsimp only
      have hv : v.id ∈ m.map Prod.fst := mem_keys_of_lookup_some hl
      split_ifs with hs
      · rw [mem_keys_dictInsert]
        simp only [List.map_cons, List.mem_cons]
        constructor
        · rintro (⟨hx | rfl⟩ | hx)
          · exact Or.inl hx
          · exact Or.inr (Or.inl rfl)
          · exact Or.inr (Or.inr hx)
        · rintro (hx | rfl | hx)
          · exact Or.inl (Or.inl hx)
          · exact Or.inl (Or.inr rfl)
          · exact Or.inr hx
      · simp only [List.map_cons, List.mem_cons]
        constructor
        · rintro (hx | hx)
          · exact Or.inl hx
          · exact Or.inr (Or.inr hx)
        · rintro (hx | rfl | hx)
          · exact Or.inl hx
          · exact Or.inl hv
          · exact Or.inr hx

theorem lookup_update_videos_not_mem (k : String) :
    ∀ (vs : List VideoRecord) (m : List (String × VideoRecord)),
      k ∉ vs.map (·.id) →
      List.lookup k (update_videos m vs) = List.lookup k m
  | [], m, _ => rfl
  | v :: vs, m, h => by
    simp only [List.map_cons, List.mem_cons] at h
    push_neg at h
    simp only [update_videos]
    rw [lookup_update_videos_not_mem k vs _ h.2]
    cases hl : List.lookup v.id m with
    | none => exact lookup_dictInsert_ne m v.id k v h.1
    | some old =>
      dsimp only
      split_ifs
      · exact lookup_dictInsert_ne m v.id k v h.1
      · rfl

theorem lookup_update_videos_mem :
    ∀ (vs : List VideoRecord) (m : List (String × VideoRecord))
      (b : VideoRecord), (vs.map (·.id)).Nodup → b ∈ vs →
      List.lookup b.id (update_videos m vs) =
        some (match List.lookup b.id m with
              | none => b
              | some old => if serLen old < serLen b then b else old)
  | [], _, b, _, hb => absurd hb (by simp)
  | v :: vs, m, b, hnd, hb => by
    simp only [update_videos]
    have hnd' : (vs.map (·.id)).Nodup :=
      (List.nodup_cons.mp (by simpa using hnd)).2
    have hvnotin : v.id ∉ vs.map (·.id) :=
      (List.nodup_cons.mp (by simpa using hnd)).1
    rcases List.mem_cons.mp hb with rfl | hb
    · rw [lookup_update_videos_not_mem b.id vs _ hvnotin]
      cases hl : List.lookup b.id m with
      | none =>
        dsimp only
        exact lookup_dictInsert_self m b.id b
      | some old =>
        dsimp only
        split_ifs
        · exact lookup_dictInsert_self m b.id b
        · exact hl
    · have hne : v.id ≠ b.id := by
        intro he
        exact hvnotin (he ▸ List.mem_map_of_mem (·.id) hb)
      have hstep : List.lookup b.id
          (match List.lookup v.id m with
           | none => dictInsert m v.id v
           | some old =>
               if serLen old < serLen v then dictInsert m v.id v else m) =
          List.lookup b.id m := by
        cases hl : List.lookup v.id m with
        | none => exact lookup_dictInsert_ne m v.id b.id v (Ne.symm hne)
        | some old =>
          dsimp only
          split_ifs
          · exact lookup_dictInsert_ne m v.id b.id v (Ne.symm hne)
          · rfl
      rw [lookup_update_videos_mem vs _ b hnd' hb, hstep]

/-- C7: merging two id-disjoint-free item sets A and B into an empty index
(in either order) yields exactly the union of their ids, and for an id
present in both with different serialized sizes the larger payload is
retained regardless of merge order. -/
theorem merge_completeness (A B : List VideoRecord)
    (hA : (A.map (·.id)).Nodup) (hB : (B.map (·.id)).Nodup) :
    (∀ k, k ∈ (update_videos (update_videos [] A) B).map Prod.fst ↔
        k ∈ A.map (·.id) ∨ k ∈ B.map (·.id)) ∧
    (∀ a ∈ A, ∀ b ∈ B, a.id = b.id → serLen a ≠ serLen b →
      List.lookup a.id (update_videos (update_videos [] A) B) =
        some (if serLen a < serLen b then b else a) ∧
      List.lookup a.id (update_videos (update_videos [] B) A) =
        some (if serLen a < serLen b then b else a)) := by
  constructor
  · intro k
    rw [keys_update_videos, keys_update_videos]
    simp
  · intro a ha b hb hid hlen
    have hA1 : List.lookup a.id (update_videos [] A) = some a := by
      rw [lookup_update_videos_mem A [] a hA ha]
      rfl
    have hB1 : List.lookup b.id (update_videos [] B) = some b := by
      rw [lookup_update_videos_mem B [] b hB hb]
      rfl
    constructor
    · rw [hid, lookup_update_videos_mem B _ b hB hb]
      rw [← hid, hA1]
    · rw [lookup_update_videos_mem A _ a hA ha]
      rw [hid, hB1]
      dsimp only
      rcases Nat.lt_or_ge (serLen a) (serLen b) with h | h
      · rw [if_pos h, if_neg (by omega)]
      · have h2 : serLen b < serLen a := by omega
        rw [if_pos h2, if_neg (by omega)]

/-- Witness for merge_completeness on two singleton item sets sharing an id
with different serialized sizes. -/
theorem merge_completeness_witness :
    List.lookup "x" (update_videos (update_videos []
        [{ id := "x", serialized := "ab" }])
        [{ id := "x", serialized := "abcd" }]) =
      some { id := "x", serialized := "abcd" } ∧
    List.lookup "x" (update_videos (update_videos []
        [{ id := "x", serialized := "abcd" }])
        [{ id := "x", serialized := "ab" }]) =
      some { id := "x", serialized := "abcd" } := by
  have h := (merge_completeness
    [{ id := "x", serialized := "ab" }]
    [{ id := "x", serialized := "abcd" }]
    (by decide) (by decide)).2
    { id := "x", serialized := "ab" } (by decide)
    { id := "x", serialized := "abcd" } (by decide) (by decide) (by decide)
  exact ⟨by simpa using h.1, by simpa using h.2⟩

/-- C4: repairing an index record that carries only a singular legacy
cutoff_date and an items map yields cutoffDatesSeen equal to exactly that
one date, currentCutoffDate equal to it, and a one-entry history (whose
recorded cutoff date is again the legacy one). -/
theorem legacy_migration (now c : String) (vs : List (String × VideoRecord))
    (hc : c ≠ "") :
    (repair_index_file now
        { cutoff_date := some c, cutoff_dates := none, index_history := none,
          current_cutoff_date := none, last_updated := none,
          created_date := none, video_ids := none, total_videos := none,
          videos := vs }).cutoff_dates = some [c] ∧
    (repair_index_file now
        { cutoff_date := some c, cutoff_dates := none, index_history := none,
          current_cutoff_date := none, last_updated := none,
          created_date := none, video_ids := none, total_videos := none,
          videos := vs }).current_cutoff_date = some c ∧
    ∃ e, (repair_index_file now
        { cutoff_date := some c, cutoff_dates := none, index_history := none,
          current_cutoff_date := none, last_updated := none,
          created_date := none, video_ids := none, total_videos := none,
          videos := vs }).index_history = some [e] ∧ e.cutoff_date = c := by
  unfold repair_index_file
  dsimp only
  rw [if_neg hc]
  dsimp only [pyOrStr]
  rw [if_neg hc]
  split_ifs <;> simp

/-- Witness for legacy_migration at the record of the spec's example. -/
theorem legacy_migration_witness :
    (repair_index_file "2025-01-01T00:00:00"
        { cutoff_date := some "2024-01-01", cutoff_dates := none,
          index_history := none, current_cutoff_date := none,
          last_updated := none, created_date := none, video_ids := none,
          total_videos := none, videos := [] }).cutoff_dates =
      some ["2024-01-01"] ∧
    (repair_index_file "2025-01-01T00:00:00"
        { cutoff_date := some "2024-01-01", cutoff_dates := none,
          index_history := none, current_cutoff_date := none,
          last_updated := none, created_date := none, video_ids := none,
          total_videos := none, videos := [] }).current_cutoff_date =
      some "2024-01-01" ∧
    ∃ e, (repair_index_file "2025-01-01T00:00:00"
        { cutoff_date := some "2024-01-01", cutoff_dates := none,
          index_history := none, current_cutoff_date := none,
          last_updated := none, created_date := none, video_ids := none,
          total_videos := none, videos := [] }).index_history =
      some [e] ∧ e.cutoff_date = "2024-01-01" :=
  legacy_migration "2025-01-01T00:00:00" "2024-01-01" [] (by decide)

theorem chunkLoop_summaries_mono (llm : PromptType → String → Option String) :
    ∀ (chunks : List Chunk) (st : ChunkLoopState),
      ∃ t, (chunkLoop llm st chunks).summaries = st.summaries ++ t
  | [], st => ⟨[], by simp [chunkLoop]⟩
  | c :: cs, st => by
    obtain ⟨t, ht⟩ := chunkLoop_summaries_mono llm cs (chunkLoopStep llm st c)
    rw [show chunkLoop llm st (c :: cs) =
      chunkLoop llm (chunkLoopStep llm st c) cs from rfl, ht]
    unfold chunkLoopStep
    cases h1 : List.lookup c.chunk_number st.disk with
    | some s => exact ⟨(c.chunk_number, s) :: t, by simp⟩
    | none =>
      cases h2 : llm PromptType.chunk c.text with
      | some s => exact ⟨(c.chunk_number, s) :: t, by simp⟩
      | none => exact ⟨t, by simp⟩

theorem chunkLoop_spec (llm : PromptType → String → Option String)
    (persisted : List (Nat × String)) :
    ∀ (chunks : List Chunk) (st : ChunkLoopState),
      (chunks.map (·.chunk_number)).Nodup →
      (∀ c ∈ chunks, List.lookup c.chunk_number st.disk =
        List.lookup c.chunk_number persisted) →
      ((chunkLoop llm st chunks).calls = st.calls ++
          (chunks.filter fun c =>
            (List.lookup c.chunk_number persisted).isNone).map
            (fun c => ServiceCall.chunkCall c.chunk_number) ∧
        (∀ c ∈ chunks, ∀ s,
          List.lookup c.chunk_number persisted = some s →
          (c.chunk_number, s) ∈ (chunkLoop llm st chunks).summaries))
  | [], st, _, _ => ⟨by simp [chunkLoop], by simp⟩
  | c :: cs, st, hnd, hdisk => by
    have hdc := hdisk c (by simp)
    have hnd' : (cs.map (·.chunk_number)).Nodup :=
      (List.nodup_cons.mp (by simpa using hnd)).2
    have hcnotin : c.chunk_number ∉ cs.map (·.chunk_number) :=
      (List.nodup_cons.mp (by simpa using hnd)).1
    rw [show chunkLoop llm st (c :: cs) =
      chunkLoop llm (chunkLoopStep llm st c) cs from rfl]
    cases hp : List.lookup c.chunk_number persisted with
    | some s =>
      have hstep : chunkLoopStep llm st c =
          { st with summaries := st.summaries ++ [(c.chunk_number, s)] } := by
        unfold chunkLoopStep
        rw [hdc, hp]
      rw [hstep]
      have ih := chunkLoop_spec llm persisted cs
        { st with summaries := st.summaries ++ [(c.chunk_number, s)] }
        hnd' (fun c' hc' => hdisk c' (by simp [hc']))
      refine ⟨?_, ?_⟩
      · rw [ih.1]
        simp [List.filter_cons, hp]
      · intro c' hc' s' hp'
        rcases List.mem_cons.mp hc' with rfl | hc'
        · have hss : s' = s := by
            rw [hp] at hp'
            injection hp' with h
            exact h.symm
          subst hss
          obtain ⟨t, ht⟩ := chunkLoop_summaries_mono llm cs
            { st with summaries := st.summaries ++ [(c'.chunk_number, s')] }
          rw [ht]
          simp
        · exact ih.2 c' hc' s' hp'
    | none =>
      have hdc' : List.lookup c.chunk_number st.disk = none := by
        rw [hdc, hp]
      cases hl : llm PromptType.chunk c.text with
      | some s =>
        have hstep : chunkLoopStep llm st c =
            { summaries := st.summaries ++ [(c.chunk_number, s)]
              calls := st.calls ++ [ServiceCall.chunkCall c.chunk_number]
              disk := st.disk ++ [(c.chunk_number, s)] } := by
          unfold chunkLoopStep
          rw [hdc', hl]
        rw [hstep]
        have hdisk' : ∀ c' ∈ cs, List.lookup c'.chunk_number
            (st.disk ++ [(c.chunk_number, s)]) =
            List.lookup c'.chunk_number persisted := by
          intro c' hc'
          have hne : c'.chunk_number ≠ c.chunk_number := fun he =>
            hcnotin (he ▸ List.mem_map_of_mem (·.chunk_number) hc')
          rw [lookup_append_single_ne _ _ _ _ hne]
          exact hdisk c' (by simp [hc'])
        have ih := chunkLoop_spec llm persisted cs
          { summaries := st.summaries ++ [(c.chunk_number, s)]
            calls := st.calls ++ [ServiceCall.chunkCall c.chunk_number]
            disk := st.disk ++ [(c.chunk_number, s)] } hnd' hdisk'
        refine ⟨?_, ?_⟩
        · rw [ih.1]
          simp [List.filter_cons, hp]
        · intro c' hc' s' hp'
          rcases List.mem_cons.mp hc' with rfl | hc'
          · rw [hp] at hp'
            cases hp'
          · exact ih.2 c' hc' s' hp'
      | none =>
        have hstep : chunkLoopStep llm st c =
            { st with
              calls := st.calls ++ [ServiceCall.chunkCall c.chunk_number] } := by
          unfold chunkLoopStep
          rw [hdc', hl]
        rw [hstep]
        have ih := chunkLoop_spec llm persisted cs
          { st with
            calls := st.calls ++ [ServiceCall.chunkCall c.chunk_number] }
          hnd' (fun c' hc' => hdisk c' (by simp [hc']))
        refine ⟨?_, ?_⟩
        · rw [ih.1]
          simp [List.filter_cons, hp]
        · intro c' hc' s' hp'
          rcases List.mem_cons.mp hc' with rfl | hc'
          · rw [hp] at hp'
            cases hp'
          · exact ih.2 c' hc' s' hp'

/-- C3: an item whose final-summary artifact exists is a no-op (no service
calls, folder untouched); otherwise, for a parsable transcript, the chunk
loop issues exactly one chunk call per chunk missing its persisted summary
artifact (in chunk order), loads the persisted summaries for the rest into
the in-memory summary list, and then one final-summarization call is
issued. -/
theorem summarization_resumability
    (llm : PromptType → String → Option String) (folder : VideoFolder) :
    (folder.final_summary_exists = true →
      (process_video_folder llm folder).calls = [] ∧
      (process_video_folder llm folder).folder = folder) ∧
    (∀ subs, folder.subtitles = some subs →
      folder.final_summary_exists = false → subs ≠ [] →
      (process_video_folder llm folder).calls =
        ((create_5min_chunks subs 300).filter fun c =>
          (List.lookup c.chunk_number
            folder.chunk_summaries_on_disk).isNone).map
          (fun c => ServiceCall.chunkCall c.chunk_number) ++
        [ServiceCall.finalCall] ∧
      (∀ c ∈ create_5min_chunks subs 300, ∀ s,
        List.lookup c.chunk_number folder.chunk_summaries_on_disk = some s →
        (c.chunk_number, s) ∈
          (chunkLoop llm
            { summaries := [], calls := [],
              disk := folder.chunk_summaries_on_disk }
            (create_5min_chunks subs 300)).summaries)) := by
  constructor
  · intro hfin
    cases hsub : folder.subtitles with
    | none =>
      unfold process_video_folder
      rw [hsub]
      exact ⟨rfl, rfl⟩
    | some subs =>
      unfold process_video_folder
      rw [hsub]
      dsimp only
      rw [if_pos hfin]
      exact ⟨rfl, rfl⟩
  · intro subs hsub hfin hne
    have hnodup : ((create_5min_chunks subs 300).map (·.chunk_number)).Nodup := by
      have h := (finishChunks_inv
        (subs.foldl (chunkStep 300)
          { chunks := [], current := [], chunk_start_time := 0,
            chunk_number := 1 })
        (foldl_chunkStep_inv (by norm_num) subs
          { chunks := [], current := [], chunk_start_time := 0,
            chunk_number := 1 }
          (by refine ⟨?_, ?_, ?_, ?_, ?_, ?_, ?_, ?_⟩ <;> simp))).2.2.2
      rw [show create_5min_chunks subs 300 =
        finishChunks (subs.foldl (chunkStep 300)
          { chunks := [], current := [], chunk_start_time := 0,
            chunk_number := 1 }) from rfl]
      rw [h]
      exact List.nodup_range' _ _ 1 (by decide)
    have hspec := chunkLoop_spec llm folder.chunk_summaries_on_disk
      (create_5min_chunks subs 300)
      { summaries := [], calls := [], disk := folder.chunk_summaries_on_disk }
      hnodup (fun c _ => rfl)
    unfold process_video_folder
    rw [hsub]
    dsimp only
    rw [if_neg (by simp [hfin]), if_neg hne]
    cases hfl : llm PromptType.final (combineSummaries
        (chunkLoop llm
          { summaries := [], calls := [],
            disk := folder.chunk_summaries_on_disk }
          (create_5min_chunks subs 300)).summaries) with
    | some s =>
      dsimp only
      refine ⟨?_, hspec.2⟩
      rw [hspec.1]
      simp
    | none =>
      dsimp only
      refine ⟨?_, hspec.2⟩
      rw [hspec.1]
      simp

/-- Witness for summarization_resumability: a three-chunk transcript with
persisted summaries for chunks 1 and 2 only, and an always-succeeding
service; only chunk 3 and the final roll-up are called. -/
theorem summarization_resumability_witness :
    (process_video_folder (fun _ _ => some "ok")
        { subtitles := some [⟨0, "a"⟩, ⟨290, "b"⟩, ⟨305, "c"⟩, ⟨610, "d"⟩],
          final_summary_exists := true,
          chunk_summaries_on_disk := [(1, "s1"), (2, "s2")] }).calls = [] ∧
    (process_video_folder (fun _ _ => some "ok")
        { subtitles := some [⟨0, "a"⟩, ⟨290, "b"⟩, ⟨305, "c"⟩, ⟨610, "d"⟩],
          final_summary_exists := false,
          chunk_summaries_on_disk := [(1, "s1"), (2, "s2")] }).calls =
      [ServiceCall.chunkCall 3, ServiceCall.finalCall] := by
  constructor
  · exact ((summarization_resumability (fun _ _ => some "ok")
      { subtitles := some [⟨0, "a"⟩, ⟨290, "b"⟩, ⟨305, "c"⟩, ⟨610, "d"⟩],
        final_summary_exists := true,
        chunk_summaries_on_disk := [(1, "s1"), (2, "s2")] }).1 rfl).1
  · have h := ((summarization_resumability (fun _ _ => some "ok")
      { subtitles := some [⟨0, "a"⟩, ⟨290, "b"⟩, ⟨305, "c"⟩, ⟨610, "d"⟩],
        final_summary_exists := false,
        chunk_summaries_on_disk := [(1, "s1"), (2, "s2")] }).2
      [⟨0, "a"⟩, ⟨290, "b"⟩, ⟨305, "c"⟩, ⟨610, "d"⟩] rfl rfl (by decide)).1
    rw [h]
    decide
